import Mathlib

/-!
# Comment Tree Assembler — shallow embedding and verification

This file embeds the client-side comment logic of the blog's post detail
page (`DetailPage`): the pure core of `fetchComments` that assembles the
two-tier comment display structure (`withReplies`), the like toggle
(`handleToggleLike`), the submission validators (`handleSubmitComment`,
`handleSubmitReply`) and the derived display state of `CommentBlock`.

Modelling conventions:
* identifiers (uuid strings in the source) are `Nat`;
* `created_at` (an ISO timestamp string, compared in the source through
  `new Date(s).getTime()`) is the parsed millisecond value, a `Nat`;
* `deleted_at` keeps only what the code inspects: presence (`Option Nat`);
* the JS `Map` built by repeated `set` is looked up as "last write wins";
* JS `Array.prototype.sort` is stable; with the comparator
  `(a, b) => b.time - a.time` the result is the unique stable descending
  reordering, embedded here as a stable insertion sort;
* the profile map and the liked-id set are inputs (`Nat → Option ProfileRow`
  and `Finset Nat`).
-/

/-- `ProfileRow` from the source: nickname and avatar url, both nullable. -/
structure ProfileRow where
  nickname : Option String
  avatar_url : Option String
deriving DecidableEq, Repr

/-- `CommentRow` from the source: one row of the `comments` table, with the
author profile attached at read time (`profiles`, null when missing). -/
structure CommentRow where
  id : Nat
  post_id : Nat
  user_id : Nat
  content : String
  created_at : Nat
  parent_id : Option Nat
  likes_count : Int
  deleted_at : Option Nat
  profiles : Option ProfileRow
deriving DecidableEq, Repr

/-- `type ReplyItem = CommentRow & { parent?: CommentRow | null }`:
a reply plus an optional back-reference to the direct reply it answers. -/
structure ReplyItem extends CommentRow where
  parent : Option CommentRow
deriving DecidableEq, Repr

/-- `type CommentWithReplies = CommentRow & { replies: ReplyItem[] }`. -/
structure CommentWithReplies extends CommentRow where
  replies : List ReplyItem
deriving DecidableEq, Repr

/-- `const attachProfiles = (c) => ({ ...c, profiles: profilesMap.get(c.user_id) ?? null })`. -/
def attachProfiles (pm : Nat → Option ProfileRow) (c : CommentRow) : CommentRow :=
  { c with profiles := pm c.user_id }

/-- Lookup in `directReplyMap`, the JS `Map` filled by
`directReplies.forEach((r) => directReplyMap.set(r.id, attachProfiles(r)))`:
on duplicate ids the last `set` wins, hence `find?` on the reversed list. -/
def directReplyLookup (pm : Nat → Option ProfileRow) (directReplies : List CommentRow)
    (i : Nat) : Option CommentRow :=
  (directReplies.reverse.find? (fun r => r.id == i)).map (attachProfiles pm)

/-- `directReplies.filter((r) => r.parent_id === c.id)`. -/
def directFor (directReplies : List CommentRow) (c : CommentRow) : List CommentRow :=
  directReplies.filter (fun r => r.parent_id == some c.id)

/-- `const direct = directReplies.filter((r) => r.parent_id === c.id).map(attachProfiles)`. -/
def directMapped (pm : Nat → Option ProfileRow) (directReplies : List CommentRow)
    (c : CommentRow) : List CommentRow :=
  (directFor directReplies c).map (attachProfiles pm)

/-- `const directIds = direct.map((r) => r.id)`. -/
def directIdsFor (pm : Nat → Option ProfileRow) (directReplies : List CommentRow)
    (c : CommentRow) : List Nat :=
  (directMapped pm directReplies c).map (fun r => r.id)

/-- The filter `(n) => directIds.includes(n.parent_id!)`: a `null` parent id
is in no id list, so the non-null assertion is harmless at runtime. -/
def nestedKeep (directIds : List Nat) (n : CommentRow) : Bool :=
  match n.parent_id with
  | some p => directIds.contains p
  | none => false

/-- `const nested = nestedReplies.filter(...).map((n) =>
({ ...attachProfiles(n), parent: directReplyMap.get(n.parent_id!) }))`. -/
def nestedFor (pm : Nat → Option ProfileRow)
    (directReplies nestedReplies : List CommentRow) (c : CommentRow) : List ReplyItem :=
  (nestedReplies.filter (nestedKeep (directIdsFor pm directReplies c))).map (fun n =>
    { toCommentRow := attachProfiles pm n
      parent := match n.parent_id with
        | some p => directReplyLookup pm directReplies p
        | none => none })

/-- The flat reply list of one group before sorting:
`[...direct.map((r) => ({ ...r, parent: null })), ...nested]`. -/
def preRepliesFor (pm : Nat → Option ProfileRow)
    (directReplies nestedReplies : List CommentRow) (c : CommentRow) : List ReplyItem :=
  ((directMapped pm directReplies c).map (fun r => { toCommentRow := r, parent := none }))
    ++ nestedFor pm directReplies nestedReplies c

/-- One insertion step of the stable descending-by-`created_at` sort:
`x` goes before the first element whose timestamp is not larger. -/
def insertDesc (x : ReplyItem) : List ReplyItem → List ReplyItem
  | [] => [x]
  | y :: ys => if y.created_at ≤ x.created_at then x :: y :: ys else y :: insertDesc x ys

/-- Stable sort modelling `.sort((a, b) => new Date(b.created_at).getTime() -
new Date(a.created_at).getTime())` on a JS engine (JS sort is stable). -/
def sortByCreatedDesc : List ReplyItem → List ReplyItem
  | [] => []
  | x :: xs => insertDesc x (sortByCreatedDesc xs)

/-- `flatReplies` of one top-level comment `c`. -/
def flatRepliesFor (pm : Nat → Option ProfileRow)
    (directReplies nestedReplies : List CommentRow) (c : CommentRow) : List ReplyItem :=
  sortByCreatedDesc (preRepliesFor pm directReplies nestedReplies c)

/-- The pure core of `fetchComments`:
`const withReplies = list.map((c) => ({ ...attachProfiles(c), replies: flatReplies }))`. -/
def withReplies (pm : Nat → Option ProfileRow)
    (topLevel directReplies nestedReplies : List CommentRow) : List CommentWithReplies :=
  topLevel.map (fun c =>
    { toCommentRow := attachProfiles pm c
      replies := flatRepliesFor pm directReplies nestedReplies c })

/-- The ids of a list of comment rows. -/
def commentIds (l : List CommentRow) : List Nat := l.map (fun c => c.id)

/-- The hypothesis of the uniqueness claims: identifiers are pairwise
distinct across the three fetched collections (primary-key uniqueness of the
`comments` table). -/
def DistinctIds (topLevel directReplies nestedReplies : List CommentRow) : Prop :=
  (commentIds (topLevel ++ directReplies ++ nestedReplies)).Nodup

/-- Number of occurrences of id `i` across all reply lists of the groups. -/
def countRepliesWithId (gs : List CommentWithReplies) (i : Nat) : Nat :=
  (gs.map (fun g => g.replies.countP (fun x => x.id == i))).sum

/-- The displayed author name: `c.profiles?.nickname || '알 수 없음'`
(JS `||` treats a missing profile, a null nickname and the empty string all
as falsy, giving the placeholder). -/
def displayName (c : CommentRow) : String :=
  match c.profiles with
  | some p =>
    match p.nickname with
    | some s => if s = "" then "알 수 없음" else s
    | none => "알 수 없음"
  | none => "알 수 없음"

/-- The derived display state of one rendered comment. -/
structure CommentView where
  liked : Bool
  isDeleted : Bool
  displayedBody : String
  displayName : String
  canLike : Bool
  canReply : Bool
  canEdit : Bool
  canDelete : Bool
deriving DecidableEq, Repr

/-- The pure content of the `CommentBlock` component: `liked`
(`likedCommentIds.has(c.id)`), `isDeleted` (`!!c.deleted_at`), the body
(`삭제된 댓글입니다.` when deleted, else `c.content`), and the affordances —
like and reply need a signed-in user and a live comment, edit and delete
additionally ownership (`user?.id === c.user_id`); all four are absent on a
deleted comment. -/
def CommentBlock (user : Option Nat) (likedCommentIds : Finset Nat)
    (c : CommentRow) : CommentView :=
  let isOwn := user == some c.user_id
  let isDeleted := c.deleted_at.isSome
  { liked := decide (c.id ∈ likedCommentIds)
    isDeleted := isDeleted
    displayedBody := if isDeleted then "삭제된 댓글입니다." else c.content
    displayName := displayName c
    canLike := !isDeleted && user.isSome
    canReply := !isDeleted && user.isSome
    canEdit := !isDeleted && isOwn
    canDelete := !isDeleted && isOwn }

/-- The client state relevant to comment liking: the viewer's liked-id set
(`likedCommentIds`) and the loaded comment groups (`comments`). -/
structure LikeState where
  likedIds : Finset Nat
  comments : List CommentWithReplies

/-- The pure state transition of `handleToggleLike`: a signed-out user is a
no-op (`if (!user) return`); otherwise, when the id is already liked the id
is removed from the set and every matching entry's count is decremented
with a floor at zero (`Math.max(0, likes_count - 1)`), else the id is added
and matching entries are incremented. A matching top-level comment is
replaced without touching its replies; otherwise its reply list is mapped
over. -/
def handleToggleLike (user : Option Nat) (commentId : Nat) (s : LikeState) : LikeState :=
  match user with
  | none => s
  | some _ =>
    if commentId ∈ s.likedIds then
      { likedIds := s.likedIds.erase commentId
        comments := s.comments.map (fun c =>
          if c.id = commentId then { c with likes_count := max 0 (c.likes_count - 1) }
          else { c with replies := c.replies.map (fun r =>
            if r.id = commentId then { r with likes_count := max 0 (r.likes_count - 1) }
            else r) }) }
    else
      { likedIds := insert commentId s.likedIds
        comments := s.comments.map (fun c =>
          if c.id = commentId then { c with likes_count := c.likes_count + 1 }
          else { c with replies := c.replies.map (fun r =>
            if r.id = commentId then { r with likes_count := r.likes_count + 1 }
            else r) }) }

/-- `const COMMENT_MAX_LENGTH = 1000`. -/
def COMMENT_MAX_LENGTH : Nat := 1000

/-- JS `String.prototype.trim`: strip leading and trailing whitespace,
modelled on the character list (Lean's builtin `String.trim` is equivalent
but does not reduce in the kernel). -/
def trimString (s : String) : String :=
  String.mk (((s.data.dropWhile Char.isWhitespace).reverse.dropWhile Char.isWhitespace).reverse)

/-- The insert command issued to the `comments` table. -/
structure InsertComment where
  post_id : Nat
  user_id : Nat
  content : String
  parent_id : Option Nat
deriving DecidableEq, Repr

/-- Outcome of a submission attempt: silently ignored (early return with no
toast), rejected with a toast message, or an insert command issued. -/
inductive SubmitResult where
  | ignored
  | rejected (msg : String)
  | inserted (cmd : InsertComment)
deriving DecidableEq, Repr

/-- The pure validation core of `handleSubmitComment`: requires login (with
a toast), trims, rejects empty and over-long content with a message and no
insert, otherwise inserts the trimmed content with null parent. -/
def handleSubmitComment (user : Option Nat) (postId : Nat)
    (commentInput : String) : SubmitResult :=
  match user with
  | none => .rejected "로그인이 필요합니다."
  | some uid =>
    let content := trimString commentInput
    if content = "" then .rejected "댓글 내용을 입력해주세요."
    else if content.length > COMMENT_MAX_LENGTH then
      .rejected ("댓글은 " ++ toString COMMENT_MAX_LENGTH ++ "자 이하여야 합니다.")
    else .inserted { post_id := postId, user_id := uid, content := content, parent_id := none }

/-- The pure validation core of `handleSubmitReply`: a signed-out user is
silently ignored; empty-after-trim or over-long content is rejected with
one message and no insert; otherwise the trimmed content is inserted with
the chosen parent id. -/
def handleSubmitReply (user : Option Nat) (postId : Nat) (parentId : Nat)
    (replyInput : String) : SubmitResult :=
  match user with
  | none => .ignored
  | some uid =>
    let content := trimString replyInput
    if content = "" ∨ content.length > COMMENT_MAX_LENGTH then
      .rejected ("댓글은 1~" ++ toString COMMENT_MAX_LENGTH ++ "자로 입력해주세요.")
    else .inserted { post_id := postId, user_id := uid, content := content,
                     parent_id := some parentId }

/-- Rewriting every row's soft-deletion marker according to `f` (by id),
leaving all structural fields alone. -/
def markDeleted (f : Nat → Option Nat) (c : CommentRow) : CommentRow :=
  { c with deleted_at := f c.id }

/-- `markDeleted` lifted to a reply item (row and back-reference). -/
def markReplyDeleted (f : Nat → Option Nat) (x : ReplyItem) : ReplyItem :=
  { toCommentRow := markDeleted f x.toCommentRow
    parent := x.parent.map (markDeleted f) }

/-- `markDeleted` lifted to an assembled group. -/
def markGroupDeleted (f : Nat → Option Nat) (g : CommentWithReplies) : CommentWithReplies :=
  { toCommentRow := markDeleted f g.toCommentRow
    replies := g.replies.map (markReplyDeleted f) }

/-- A top-level comment whose stored like count is zero. -/
def cexZeroLikesRow : CommentRow :=
  { id := 1, post_id := 0, user_id := 10, content := "c", created_at := 1,
    parent_id := none, likes_count := 0, deleted_at := none, profiles := none }

/-- Counterexample state for the like-toggle delta: comment 1 has a stored
count of zero yet is in the viewer's liked set. -/
def cexLikeState : LikeState :=
  { likedIds := ({1} : Finset Nat)
    comments := [{ toCommentRow := cexZeroLikesRow, replies := [] }] }

/-- The scenario from the specification, used as concrete witness input:
top-level comment A. -/
def sampleA : CommentRow :=
  { id := 1, post_id := 0, user_id := 10, content := "A", created_at := 10,
    parent_id := none, likes_count := 0, deleted_at := none, profiles := none }

/-- Direct reply B to A. -/
def sampleB : CommentRow :=
  { id := 2, post_id := 0, user_id := 11, content := "B", created_at := 9,
    parent_id := some 1, likes_count := 0, deleted_at := none, profiles := none }

/-- Direct reply C to A. -/
def sampleC : CommentRow :=
  { id := 3, post_id := 0, user_id := 12, content := "C", created_at := 8,
    parent_id := some 1, likes_count := 0, deleted_at := none, profiles := none }

/-- Nested reply D to B. -/
def sampleD : CommentRow :=
  { id := 4, post_id := 0, user_id := 13, content := "D", created_at := 7,
    parent_id := some 2, likes_count := 0, deleted_at := none, profiles := none }

/-- An empty profile lookup, for witnesses. -/
def samplePm : Nat → Option ProfileRow := fun _ => none

/-- A nested reply whose parent id (99) matches no direct reply. -/
def sampleOrphan : CommentRow :=
  { id := 8, post_id := 0, user_id := 14, content := "orphan", created_at := 6,
    parent_id := some 99, likes_count := 0, deleted_at := none, profiles := none }

/-- The ordering asserted by the tie-break clause of the spec, reading
"ordered by identifier" as ascending ids within one timestamp. -/
def SortedByTimeThenIdAsc (l : List ReplyItem) : Prop :=
  l.Pairwise (fun a b => b.created_at < a.created_at ∨
    (a.created_at = b.created_at ∧ a.id < b.id))

/-- The same with the descending reading of "ordered by identifier". -/
def SortedByTimeThenIdDesc (l : List ReplyItem) : Prop :=
  l.Pairwise (fun a b => b.created_at < a.created_at ∨
    (a.created_at = b.created_at ∧ b.id < a.id))

/-- Counterexample input for the tie-break: a top-level comment with three
direct replies sharing one timestamp, fetched in id order 5, 3, 7. -/
def cexTop : CommentRow :=
  { id := 1, post_id := 0, user_id := 10, content := "top", created_at := 10,
    parent_id := none, likes_count := 0, deleted_at := none, profiles := none }

/-- First fetched equal-timestamp reply, id 5. -/
def cexR5 : CommentRow :=
  { id := 5, post_id := 0, user_id := 11, content := "r5", created_at := 9,
    parent_id := some 1, likes_count := 0, deleted_at := none, profiles := none }

/-- Second fetched equal-timestamp reply, id 3. -/
def cexR3 : CommentRow :=
  { id := 3, post_id := 0, user_id := 12, content := "r3", created_at := 9,
    parent_id := some 1, likes_count := 0, deleted_at := none, profiles := none }

/-- Third fetched equal-timestamp reply, id 7. -/
def cexR7 : CommentRow :=
  { id := 7, post_id := 0, user_id := 13, content := "r7", created_at := 9,
    parent_id := some 1, likes_count := 0, deleted_at := none, profiles := none }

/-! ## Lemmas about the stable sort -/

theorem mem_insertDesc (x a : ReplyItem) (l : List ReplyItem) :
    a ∈ insertDesc x l ↔ a = x ∨ a ∈ l := by
  induction l with
  | nil => simp [insertDesc]
  | cons y ys ih =>
    by_cases h : y.created_at ≤ x.created_at
    · simp [insertDesc, h]
    · simp only [insertDesc, if_neg h, List.mem_cons, ih]
      tauto

theorem mem_sortByCreatedDesc (a : ReplyItem) (l : List ReplyItem) :
    a ∈ sortByCreatedDesc l ↔ a ∈ l := by
  induction l with
  | nil => simp [sortByCreatedDesc]
  | cons x xs ih => simp [sortByCreatedDesc, mem_insertDesc, ih]

theorem countP_insertDesc (p : ReplyItem → Bool) (x : ReplyItem) (l : List ReplyItem) :
    (insertDesc x l).countP p = (x :: l).countP p := by
  induction l with
  | nil => simp [insertDesc]
  | cons y ys ih =>
    by_cases h : y.created_at ≤ x.created_at
    · simp [insertDesc, h]
    · simp only [insertDesc, if_neg h, List.countP_cons, ih]
      omega

theorem countP_sortByCreatedDesc (p : ReplyItem → Bool) (l : List ReplyItem) :
    (sortByCreatedDesc l).countP p = l.countP p := by
  induction l with
  | nil => rfl
  | cons x xs ih => simp [sortByCreatedDesc, countP_insertDesc, List.countP_cons, ih]

theorem pairwise_insertDesc (x : ReplyItem) (l : List ReplyItem)
    (h : l.Pairwise (fun a b => b.created_at ≤ a.created_at)) :
    (insertDesc x l).Pairwise (fun a b => b.created_at ≤ a.created_at) := by
  induction l with
  | nil => simp [insertDesc]
  | cons y ys ih =>
    rcases List.pairwise_cons.mp h with ⟨hy, hys⟩
    by_cases hxy : y.created_at ≤ x.created_at
    · simp only [insertDesc, if_pos hxy]
      refine List.pairwise_cons.mpr ⟨?_, h⟩
      intro b hb
      rcases List.mem_cons.mp hb with rfl | hb
      · exact hxy
      · exact le_trans (hy b hb) hxy
    · simp only [insertDesc, if_neg hxy]
      refine List.pairwise_cons.mpr ⟨?_, ih hys⟩
      intro b hb
      rcases (mem_insertDesc x b ys).mp hb with rfl | hb
      · omega
      · exact hy b hb

theorem pairwise_sortByCreatedDesc (l : List ReplyItem) :
    (sortByCreatedDesc l).Pairwise (fun a b => b.created_at ≤ a.created_at) := by
  induction l with
  | nil => simp [sortByCreatedDesc]
  | cons x xs ih => exact pairwise_insertDesc x _ ih

theorem filter_time_insertDesc (t : Nat) (x : ReplyItem) (l : List ReplyItem) :
    (insertDesc x l).filter (fun a => a.created_at == t) =
      if x.created_at = t then x :: l.filter (fun a => a.created_at == t)
      else l.filter (fun a => a.created_at == t) := by
  induction l with
  | nil =>
    by_cases hx : x.created_at = t <;> simp [insertDesc, List.filter_cons, hx]
  | cons y ys ih =>
    by_cases hxy : y.created_at ≤ x.created_at
    · simp only [insertDesc, if_pos hxy]
      by_cases hx : x.created_at = t <;> simp [List.filter_cons, hx]
    · simp only [insertDesc, if_neg hxy]
      by_cases hx : x.created_at = t
      · have hy : ¬ (y.created_at = t) := by omega
        simp [List.filter_cons, hx, hy, ih]
      · by_cases hy : y.created_at = t <;> simp [List.filter_cons, hx, hy, ih]

/-- Stability of the sort: within one timestamp the original order (direct
replies first, then nested, each in fetch order) is preserved. -/
theorem filter_time_sortByCreatedDesc (t : Nat) (l : List ReplyItem) :
    (sortByCreatedDesc l).filter (fun a => a.created_at == t) =
      l.filter (fun a => a.created_at == t) := by
  induction l with
  | nil => rfl
  | cons x xs ih =>
    by_cases hx : x.created_at = t <;>
      simp [sortByCreatedDesc, filter_time_insertDesc, hx, List.filter_cons, ih]

/-! ## Field-preservation simp lemmas -/

@[simp] theorem attachProfiles_id (pm : Nat → Option ProfileRow) (c : CommentRow) :
    (attachProfiles pm c).id = c.id := rfl

@[simp] theorem attachProfiles_parent_id (pm : Nat → Option ProfileRow) (c : CommentRow) :
    (attachProfiles pm c).parent_id = c.parent_id := rfl

@[simp] theorem attachProfiles_created_at (pm : Nat → Option ProfileRow) (c : CommentRow) :
    (attachProfiles pm c).created_at = c.created_at := rfl

@[simp] theorem attachProfiles_user_id (pm : Nat → Option ProfileRow) (c : CommentRow) :
    (attachProfiles pm c).user_id = c.user_id := rfl

@[simp] theorem attachProfiles_deleted_at (pm : Nat → Option ProfileRow) (c : CommentRow) :
    (attachProfiles pm c).deleted_at = c.deleted_at := rfl

@[simp] theorem attachProfiles_profiles (pm : Nat → Option ProfileRow) (c : CommentRow) :
    (attachProfiles pm c).profiles = pm c.user_id := rfl

/-! ## Counting lemmas under distinct identifiers -/

theorem eq_of_mem_of_id_eq (l : List CommentRow) (hnd : (commentIds l).Nodup)
    (a b : CommentRow) (ha : a ∈ l) (hb : b ∈ l) (h : a.id = b.id) : a = b := by
  have hnd' : (l.map (fun c => c.id)).Nodup := by simpa [commentIds] using hnd
  exact List.inj_on_of_nodup_map hnd' ha hb h

theorem countP_id_and_zero (l : List CommentRow) (i : Nat) (h : ∀ x ∈ l, x.id ≠ i)
    (q : CommentRow → Bool) : l.countP (fun x => x.id == i && q x) = 0 := by
  apply List.countP_eq_zero.mpr
  intro a ha
  simp [h a ha]

theorem countP_id_and_unique (l : List CommentRow) (hnd : (commentIds l).Nodup)
    (r : CommentRow) (hr : r ∈ l) (q : CommentRow → Bool) :
    l.countP (fun x => x.id == r.id && q x) = if q r then 1 else 0 := by
  induction l with
  | nil => cases hr
  | cons x xs ih =>
    have hnd' : x.id ∉ commentIds xs ∧ (commentIds xs).Nodup := by
      simpa [commentIds] using hnd
    rcases List.mem_cons.mp hr with rfl | hr'
    · have htail : xs.countP (fun y => y.id == r.id && q y) = 0 := by
        apply countP_id_and_zero
        intro y hy hcon
        exact hnd'.1 (by simp [commentIds]; exact ⟨y, hy, hcon⟩)
      by_cases hq : q r <;> simp [List.countP_cons, htail, hq]
    · have hne : x.id ≠ r.id := by
        intro hcon
        exact hnd'.1 (by simp [commentIds]; exact ⟨r, hr', hcon.symm⟩)
      simp [List.countP_cons, hne, ih hnd'.2 hr']

theorem countP_id_one (l : List CommentRow) (hnd : (commentIds l).Nodup)
    (r : CommentRow) (hr : r ∈ l) : l.countP (fun x => x.id == r.id) = 1 := by
  have h := countP_id_and_unique l hnd r hr (fun _ => true)
  simpa using h

theorem countP_id_zero (l : List CommentRow) (i : Nat) (h : ∀ x ∈ l, x.id ≠ i) :
    l.countP (fun x => x.id == i) = 0 := by
  apply List.countP_eq_zero.mpr
  intro a ha
  simp [h a ha]

theorem find?_id_of_nodup (l : List CommentRow) (hnd : (commentIds l).Nodup)
    (d : CommentRow) (hd : d ∈ l) : l.find? (fun r => r.id == d.id) = some d := by
  induction l with
  | nil => cases hd
  | cons x xs ih =>
    have hnd' : x.id ∉ commentIds xs ∧ (commentIds xs).Nodup := by
      simpa [commentIds] using hnd
    rcases List.mem_cons.mp hd with rfl | hd'
    · exact List.find?_cons_of_pos _ (by simp)
    · have hne : x.id ≠ d.id := by
        intro hcon
        exact hnd'.1 (by simp [commentIds]; exact ⟨d, hd', hcon.symm⟩)
      rw [List.find?_cons_of_neg _ (by simp [hne])]
      exact ih hnd'.2 hd'

theorem directReplyLookup_of_nodup (pm : Nat → Option ProfileRow) (dr : List CommentRow)
    (hnd : (commentIds dr).Nodup) (d : CommentRow) (hd : d ∈ dr) :
    directReplyLookup pm dr d.id = some (attachProfiles pm d) := by
  have hrev : (commentIds dr.reverse).Nodup := by
    simpa [commentIds, List.map_reverse] using hnd
  rw [directReplyLookup, find?_id_of_nodup dr.reverse hrev d (List.mem_reverse.mpr hd)]
  rfl

/-- Unpacking the global distinctness hypothesis into per-collection
`Nodup`s and pairwise id-disjointness. -/
theorem distinctIds_parts (tl dr nr : List CommentRow) (h : DistinctIds tl dr nr) :
    (commentIds tl).Nodup ∧ (commentIds dr).Nodup ∧ (commentIds nr).Nodup ∧
    (∀ a ∈ tl, ∀ b ∈ dr, a.id ≠ b.id) ∧ (∀ a ∈ tl, ∀ b ∈ nr, a.id ≠ b.id) ∧
    (∀ a ∈ dr, ∀ b ∈ nr, a.id ≠ b.id) := by
  have h' : ((commentIds tl ++ (commentIds dr ++ commentIds nr))).Nodup := by
    simpa [DistinctIds, commentIds] using h
  rw [List.nodup_append] at h'
  obtain ⟨h1, h23, hdisj1⟩ := h'
  rw [List.nodup_append] at h23
  obtain ⟨h2, h3, hdisj23⟩ := h23
  refine ⟨h1, h2, h3, ?_, ?_, ?_⟩
  · intro a ha b hb hab
    exact hdisj1 (by simp [commentIds]; exact ⟨a, ha, rfl⟩)
      (by simp [commentIds]; exact Or.inl ⟨b, hb, hab.symm⟩)
  · intro a ha b hb hab
    exact hdisj1 (by simp [commentIds]; exact ⟨a, ha, rfl⟩)
      (by simp [commentIds]; exact Or.inr ⟨b, hb, hab.symm⟩)
  · intro a ha b hb hab
    exact hdisj23 (by simp [commentIds]; exact ⟨a, ha, rfl⟩)
      (by simp [commentIds]; exact ⟨b, hb, hab.symm⟩)

theorem directIdsFor_eq (pm : Nat → Option ProfileRow) (dr : List CommentRow) (c : CommentRow) :
    directIdsFor pm dr c = (directFor dr c).map (fun r => r.id) := by
  simp [directIdsFor, directMapped, List.map_map, Function.comp]

theorem countP_direct_part (pm : Nat → Option ProfileRow) (dr : List CommentRow)
    (c : CommentRow) (i : Nat) :
    ((directMapped pm dr c).map
        (fun r => ({ toCommentRow := r, parent := none } : ReplyItem))).countP
        (fun x => x.id == i) =
      dr.countP (fun r => r.id == i && r.parent_id == some c.id) := by
  simp [directMapped, directFor, List.countP_map, List.countP_filter, Function.comp]

theorem countP_nested_part (pm : Nat → Option ProfileRow) (dr nr : List CommentRow)
    (c : CommentRow) (i : Nat) :
    (nestedFor pm dr nr c).countP (fun x => x.id == i) =
      nr.countP (fun n => n.id == i && nestedKeep (directIdsFor pm dr c) n) := by
  simp [nestedFor, List.countP_map, List.countP_filter, Function.comp]

theorem countP_flatRepliesFor (pm : Nat → Option ProfileRow) (dr nr : List CommentRow)
    (c : CommentRow) (i : Nat) :
    (flatRepliesFor pm dr nr c).countP (fun x => x.id == i) =
      dr.countP (fun r => r.id == i && r.parent_id == some c.id) +
      nr.countP (fun n => n.id == i && nestedKeep (directIdsFor pm dr c) n) := by
  rw [flatRepliesFor, countP_sortByCreatedDesc, preRepliesFor, List.countP_append,
    countP_direct_part, countP_nested_part]

theorem contains_directIdsFor (pm : Nat → Option ProfileRow) (dr : List CommentRow)
    (c : CommentRow) (hnd : (commentIds dr).Nodup) (d : CommentRow) (hd : d ∈ dr) :
    (directIdsFor pm dr c).contains d.id = (d.parent_id == some c.id) := by
  rw [directIdsFor_eq]
  by_cases h : d.parent_id = some c.id
  · have hmem : d.id ∈ (directFor dr c).map (fun r => r.id) := by
      simp only [directFor, List.mem_map, List.mem_filter]
      exact ⟨d, ⟨hd, by simp [h]⟩, rfl⟩
    simp [hmem, h]
  · have hmem : d.id ∉ (directFor dr c).map (fun r => r.id) := by
      simp only [directFor, List.mem_map, List.mem_filter, not_exists]
      rintro x ⟨⟨hx, hpx⟩, hid⟩
      have hxd := eq_of_mem_of_id_eq dr hnd x d hx hd hid
      subst hxd
      exact h (by simpa using hpx)
    simp [hmem, h]

/-- Per-group count of a direct reply's id: `1` exactly when the group's
top-level comment is its parent. -/
theorem group_countP_direct (pm : Nat → Option ProfileRow) (dr nr : List CommentRow)
    (c r : CommentRow) (hr : r ∈ dr) (hnddr : (commentIds dr).Nodup)
    (hdisj : ∀ x ∈ nr, x.id ≠ r.id) :
    (flatRepliesFor pm dr nr c).countP (fun x => x.id == r.id) =
      if r.parent_id = some c.id then 1 else 0 := by
  rw [countP_flatRepliesFor, countP_id_and_unique dr hnddr r hr,
    countP_id_and_zero nr r.id hdisj]
  by_cases h : r.parent_id = some c.id <;> simp [h]

/-- Per-group count of a nested reply's id, when its parent `d` is a direct
reply: `1` exactly when `d` hangs off the group's top-level comment. -/
theorem group_countP_nested (pm : Nat → Option ProfileRow) (dr nr : List CommentRow)
    (c n d : CommentRow) (hn : n ∈ nr) (hd : d ∈ dr) (hpn : n.parent_id = some d.id)
    (hnddr : (commentIds dr).Nodup) (hndnr : (commentIds nr).Nodup)
    (hdisj : ∀ x ∈ dr, x.id ≠ n.id) :
    (flatRepliesFor pm dr nr c).countP (fun x => x.id == n.id) =
      if d.parent_id = some c.id then 1 else 0 := by
  rw [countP_flatRepliesFor, countP_id_and_zero dr n.id hdisj,
    countP_id_and_unique nr hndnr n hn]
  have hkeep : nestedKeep (directIdsFor pm dr c) n = (d.parent_id == some c.id) := by
    rw [nestedKeep, hpn]
    exact contains_directIdsFor pm dr c hnddr d hd
  rw [hkeep]
  by_cases h : d.parent_id = some c.id <;> simp [h]

/-- Summing the per-group counts over the emitted groups. -/
theorem countRepliesWithId_withReplies (pm : Nat → Option ProfileRow)
    (tl dr nr : List CommentRow) (i : Nat) (q : CommentRow → Bool)
    (h : ∀ c ∈ tl, (flatRepliesFor pm dr nr c).countP (fun x => x.id == i) =
        if q c then 1 else 0) :
    countRepliesWithId (withReplies pm tl dr nr) i = tl.countP q := by
  induction tl with
  | nil => rfl
  | cons c cs ih =>
    have hc := h c (List.mem_cons_self c cs)
    have hcs := ih (fun x hx => h x (List.mem_cons_of_mem c hx))
    simp only [countRepliesWithId, withReplies, List.map_cons, List.map_map,
      List.sum_cons] at hcs ⊢
    rw [hc, hcs, List.countP_cons]
    by_cases hq : q c
    · simp [hq]
      omega
    · simp [hq]

/-! ## Membership characterisation of the assembled structure -/

theorem mem_withReplies (pm : Nat → Option ProfileRow) (tl dr nr : List CommentRow)
    (g : CommentWithReplies) :
    g ∈ withReplies pm tl dr nr ↔ ∃ c ∈ tl,
      g = { toCommentRow := attachProfiles pm c
            replies := flatRepliesFor pm dr nr c } := by
  simp only [withReplies, List.mem_map]
  constructor
  · rintro ⟨c, hc, rfl⟩
    exact ⟨c, hc, rfl⟩
  · rintro ⟨c, hc, rfl⟩
    exact ⟨c, hc, rfl⟩

theorem mem_flatRepliesFor (pm : Nat → Option ProfileRow) (dr nr : List CommentRow)
    (c : CommentRow) (x : ReplyItem) :
    x ∈ flatRepliesFor pm dr nr c ↔
      (∃ r ∈ directFor dr c,
        x = { toCommentRow := attachProfiles pm r, parent := none }) ∨
      (∃ m ∈ nr, nestedKeep (directIdsFor pm dr c) m = true ∧
        x = { toCommentRow := attachProfiles pm m
              parent := match m.parent_id with
                | some p => directReplyLookup pm dr p
                | none => none }) := by
  rw [flatRepliesFor, mem_sortByCreatedDesc, preRepliesFor, List.mem_append]
  simp only [directMapped, nestedFor, List.mem_map, List.mem_filter]
  constructor
  · rintro (⟨r, ⟨r₀, hr₀, rfl⟩, rfl⟩ | ⟨m, ⟨hm, hkeep⟩, rfl⟩)
    · exact Or.inl ⟨r₀, hr₀, rfl⟩
    · exact Or.inr ⟨m, hm, hkeep, rfl⟩
  · rintro (⟨r₀, hr₀, rfl⟩ | ⟨m, hm, hkeep, rfl⟩)
    · exact Or.inl ⟨attachProfiles pm r₀, ⟨r₀, hr₀, rfl⟩, rfl⟩
    · exact Or.inr ⟨m, ⟨hm, hkeep⟩, rfl⟩

/-- C1. For every input where the collections have pairwise-distinct
identifiers, every element of `directReplies` whose `parent_id` equals the
id of some comment in `topLevel` appears exactly once across all
`CommentGroup` reply lists produced by the assembler, and every element of
`directReplies` whose `parent_id` matches no comment in `topLevel` appears
in no reply list. -/
theorem claim_C1 (pm : Nat → Option ProfileRow) (tl dr nr : List CommentRow)
    (r : CommentRow) (hnd : DistinctIds tl dr nr) (hr : r ∈ dr) :
    ((∃ c ∈ tl, r.parent_id = some c.id) →
      countRepliesWithId (withReplies pm tl dr nr) r.id = 1) ∧
    ((∀ c ∈ tl, r.parent_id ≠ some c.id) →
      countRepliesWithId (withReplies pm tl dr nr) r.id = 0) := by
  obtain ⟨hndtl, hnddr, _hndnr, _htd, _htn, hdn⟩ := distinctIds_parts tl dr nr hnd
  have hdisj : ∀ x ∈ nr, x.id ≠ r.id := fun x hx hcon => hdn r hr x hx hcon.symm
  have hgc : ∀ c ∈ tl, (flatRepliesFor pm dr nr c).countP (fun x => x.id == r.id) =
      if (r.parent_id == some c.id) then 1 else 0 := by
    intro c _
    rw [group_countP_direct pm dr nr c r hr hnddr hdisj]
    by_cases h : r.parent_id = some c.id <;> simp [h]
  have htotal := countRepliesWithId_withReplies pm tl dr nr r.id
      (fun c => r.parent_id == some c.id) hgc
  constructor
  · rintro ⟨c₀, hc₀, hp⟩
    rw [htotal]
    have hcong : tl.countP (fun c => r.parent_id == some c.id) =
        tl.countP (fun c => c.id == c₀.id) := by
      apply List.countP_congr
      intro x _
      rw [hp]
      simp only [beq_iff_eq, Option.some.injEq]
      exact eq_comm
    rw [hcong, countP_id_one tl hndtl c₀ hc₀]
  · intro hnone
    rw [htotal]
    apply List.countP_eq_zero.mpr
    intro c hc
    simp [hnone c hc]

/-- A concrete instance of C1: reply B (parent A) appears exactly once. -/
theorem claim_C1_witness :
    countRepliesWithId (withReplies samplePm [sampleA] [sampleB, sampleC] [sampleD]) 2 = 1 := by
  have h := (claim_C1 samplePm [sampleA] [sampleB, sampleC] [sampleD] sampleB
      (by unfold DistinctIds commentIds sampleA sampleB sampleC sampleD; decide)
      (by simp)).1 ⟨sampleA, by simp, by decide⟩
  exact h

/-- C2. For every input where identifiers are pairwise distinct, every
element of `nestedReplies` whose `parent_id` equals the id of some element
of `directReplies` whose own `parent_id` is in `topLevel` appears exactly
once across all `CommentGroup` reply lists, carrying a back-reference to
that direct-reply parent (with its profile attached); every direct reply in
a reply list carries a null back-reference. -/
theorem claim_C2 (pm : Nat → Option ProfileRow) (tl dr nr : List CommentRow)
    (n d : CommentRow) (hnd : DistinctIds tl dr nr) (hn : n ∈ nr) (hd : d ∈ dr)
    (hpn : n.parent_id = some d.id) (hgp : ∃ c ∈ tl, d.parent_id = some c.id) :
    countRepliesWithId (withReplies pm tl dr nr) n.id = 1 ∧
    (∀ g ∈ withReplies pm tl dr nr, ∀ x ∈ g.replies, x.id = n.id →
      x.parent = some (attachProfiles pm d)) ∧
    (∀ g ∈ withReplies pm tl dr nr, ∀ x ∈ g.replies, ∀ e ∈ dr, x.id = e.id →
      x.parent = none) := by
  obtain ⟨hndtl, hnddr, hndnr, _htd, _htn, hdn⟩ := distinctIds_parts tl dr nr hnd
  have hdisj : ∀ x ∈ dr, x.id ≠ n.id := fun x hx hcon => hdn x hx n hn hcon
  refine ⟨?_, ?_, ?_⟩
  · have hgc : ∀ c ∈ tl, (flatRepliesFor pm dr nr c).countP (fun x => x.id == n.id) =
        if (d.parent_id == some c.id) then 1 else 0 := by
      intro c _
      rw [group_countP_nested pm dr nr c n d hn hd hpn hnddr hndnr hdisj]
      by_cases h : d.parent_id = some c.id <;> simp [h]
    have htotal := countRepliesWithId_withReplies pm tl dr nr n.id
        (fun c => d.parent_id == some c.id) hgc
    obtain ⟨c₀, hc₀, hp⟩ := hgp
    rw [htotal]
    have hcong : tl.countP (fun c => d.parent_id == some c.id) =
        tl.countP (fun c => c.id == c₀.id) := by
      apply List.countP_congr
      intro x _
      rw [hp]
      simp only [beq_iff_eq, Option.some.injEq]
      exact eq_comm
    rw [hcong, countP_id_one tl hndtl c₀ hc₀]
  · intro g hg x hx hxid
    obtain ⟨c, _hc, rfl⟩ := (mem_withReplies pm tl dr nr g).mp hg
    rcases (mem_flatRepliesFor pm dr nr c x).mp hx with ⟨r, hr, rfl⟩ | ⟨m, hm, _hkeep, rfl⟩
    · exfalso
      have hrdr : r ∈ dr := by
        have h := hr
        simp only [directFor, List.mem_filter] at h
        exact h.1
      exact hdn r hrdr n hn (by simpa using hxid)
    · have hmn : m = n := eq_of_mem_of_id_eq nr hndnr m n hm hn (by simpa using hxid)
      subst hmn
      simp only [hpn]
      rw [directReplyLookup_of_nodup pm dr hnddr d hd]
  · intro g hg x hx e he hxid
    obtain ⟨c, _hc, rfl⟩ := (mem_withReplies pm tl dr nr g).mp hg
    rcases (mem_flatRepliesFor pm dr nr c x).mp hx with ⟨r, _hr, rfl⟩ | ⟨m, hm, _hkeep, rfl⟩
    · rfl
    · exfalso
      exact hdn e he m hm ((by simpa using hxid : m.id = e.id)).symm

/-- A concrete instance of C2: nested reply D (parent B, grandparent A)
appears exactly once. -/
theorem claim_C2_witness :
    countRepliesWithId (withReplies samplePm [sampleA] [sampleB, sampleC] [sampleD]) 4 = 1 := by
  have h := (claim_C2 samplePm [sampleA] [sampleB, sampleC] [sampleD] sampleD sampleB
      (by unfold DistinctIds commentIds sampleA sampleB sampleC sampleD; decide)
      (by simp) (by simp) (by decide) ⟨sampleA, by simp, by decide⟩).1
  exact h

/-- C3, counterexample. The source sorts only by timestamp with a stable
sort, so three equal-timestamp replies fetched in id order 5, 3, 7 stay in
that order: the emitted reply list is ordered by identifier in neither
direction, refuting the tie-break clause as stated. -/
theorem claim_C3_counterexample :
    withReplies samplePm [cexTop] [cexR5, cexR3, cexR7] [] =
      [{ toCommentRow := attachProfiles samplePm cexTop
         replies := flatRepliesFor samplePm [cexR5, cexR3, cexR7] [] cexTop }] ∧
    (flatRepliesFor samplePm [cexR5, cexR3, cexR7] [] cexTop).map (fun x => (x.id, x.created_at)) =
      [(5, 9), (3, 9), (7, 9)] ∧
    ¬ SortedByTimeThenIdAsc (flatRepliesFor samplePm [cexR5, cexR3, cexR7] [] cexTop) ∧
    ¬ SortedByTimeThenIdDesc (flatRepliesFor samplePm [cexR5, cexR3, cexR7] [] cexTop) := by
  refine ⟨rfl, by decide, ?_, ?_⟩
  · unfold SortedByTimeThenIdAsc
    decide
  · unfold SortedByTimeThenIdDesc
    decide

/-- C3 as amended: within each emitted CommentGroup the reply list is
sorted descending by creation timestamp; replies with equal creation
timestamps keep the order of the unsorted merge (direct replies in fetch
order, then nested replies in fetch order) — the sort is stable and the
source has no identifier tie-break. -/
theorem claim_C3_amended (pm : Nat → Option ProfileRow) (tl dr nr : List CommentRow) :
    ∀ g ∈ withReplies pm tl dr nr,
      g.replies.Pairwise (fun a b => b.created_at ≤ a.created_at) ∧
      ∃ c ∈ tl, g.replies = flatRepliesFor pm dr nr c ∧
        ∀ t, g.replies.filter (fun x => x.created_at == t) =
          (preRepliesFor pm dr nr c).filter (fun x => x.created_at == t) := by
  intro g hg
  obtain ⟨c, hc, rfl⟩ := (mem_withReplies pm tl dr nr g).mp hg
  exact ⟨pairwise_sortByCreatedDesc _, c, hc, rfl,
    fun t => filter_time_sortByCreatedDesc t _⟩

/-- A concrete instance of the amended C3 at the spec scenario input. -/
theorem claim_C3_amended_witness :
    ({ toCommentRow := attachProfiles samplePm sampleA
       replies := flatRepliesFor samplePm [sampleB, sampleC] [sampleD] sampleA } :
      CommentWithReplies).replies.Pairwise (fun a b => b.created_at ≤ a.created_at) :=
  (claim_C3_amended samplePm [sampleA] [sampleB, sampleC] [sampleD] _
    (by simp [withReplies])).1

/-- C4. The assembler is a pure function: structurally identical inputs
give structurally equal outputs. (The source obtains this by copying every
row — spreads and `map`/`filter` — before attaching derived fields, so none
of the five inputs is mutated; in this embedding every operation is a pure
value transform, which is the faithful image of that behaviour.) -/
theorem claim_C4 (pm pm' : Nat → Option ProfileRow) (tl tl' dr dr' nr nr' : List CommentRow)
    (hpm : pm = pm') (htl : tl = tl') (hdr : dr = dr') (hnr : nr = nr') :
    withReplies pm tl dr nr = withReplies pm' tl' dr' nr' := by
  subst hpm htl hdr hnr
  rfl

/-- A concrete instance of C4: two runs on the scenario input agree. -/
theorem claim_C4_witness :
    withReplies samplePm [sampleA] [sampleB, sampleC] [sampleD] =
      withReplies samplePm [sampleA] [sampleB, sampleC] [sampleD] :=
  claim_C4 samplePm samplePm [sampleA] [sampleA] [sampleB, sampleC] [sampleB, sampleC]
    [sampleD] [sampleD] rfl rfl rfl rfl

theorem nestedKeep_orphan (pm : Nat → Option ProfileRow) (dr : List CommentRow)
    (c n : CommentRow) (horphan : ∀ d ∈ dr, n.parent_id ≠ some d.id) :
    nestedKeep (directIdsFor pm dr c) n = false := by
  rw [nestedKeep]
  cases hp : n.parent_id with
  | none => rfl
  | some p =>
    rw [directIdsFor_eq]
    have hnot : p ∉ (directFor dr c).map (fun r => r.id) := by
      simp only [directFor, List.mem_map, List.mem_filter, not_exists]
      rintro x ⟨⟨hx, _⟩, hid⟩
      exact horphan x hx (by rw [hp, hid])
    simp [hnot]

/-- C5. A nested reply whose `parent_id` matches no element of
`directReplies` is excluded from every CommentGroup reply list — deleting
it from `nestedReplies` leaves the output unchanged — and the assembler
still returns a full result (one group per top-level comment) rather than
raising an error. -/
theorem claim_C5 (pm : Nat → Option ProfileRow) (tl dr nr₁ nr₂ : List CommentRow)
    (n : CommentRow) (horphan : ∀ d ∈ dr, n.parent_id ≠ some d.id) :
    withReplies pm tl dr (nr₁ ++ n :: nr₂) = withReplies pm tl dr (nr₁ ++ nr₂) ∧
    (withReplies pm tl dr (nr₁ ++ n :: nr₂)).length = tl.length := by
  constructor
  · unfold withReplies
    apply List.map_congr_left
    intro c _
    have hflat : flatRepliesFor pm dr (nr₁ ++ n :: nr₂) c =
        flatRepliesFor pm dr (nr₁ ++ nr₂) c := by
      unfold flatRepliesFor preRepliesFor nestedFor
      rw [List.filter_append, List.filter_append, List.filter_cons,
        nestedKeep_orphan pm dr c n horphan]
      simp
    rw [hflat]
  · simp [withReplies]

/-- A concrete instance of C5: removing the orphan nested reply (parent id
99, matching no direct reply) does not change the output. -/
theorem claim_C5_witness :
    withReplies samplePm [sampleA] [sampleB, sampleC] ([sampleD] ++ sampleOrphan :: []) =
      withReplies samplePm [sampleA] [sampleB, sampleC] ([sampleD] ++ []) ∧
    (withReplies samplePm [sampleA] [sampleB, sampleC]
      ([sampleD] ++ sampleOrphan :: [])).length = 1 :=
  claim_C5 samplePm [sampleA] [sampleB, sampleC] [sampleD] [] sampleOrphan (by decide)

/-! ## Deletion markers commute with assembly (claim C6) -/

@[simp] theorem markDeleted_id (f : Nat → Option Nat) (c : CommentRow) :
    (markDeleted f c).id = c.id := rfl

@[simp] theorem markDeleted_parent_id (f : Nat → Option Nat) (c : CommentRow) :
    (markDeleted f c).parent_id = c.parent_id := rfl

@[simp] theorem markDeleted_created_at (f : Nat → Option Nat) (c : CommentRow) :
    (markDeleted f c).created_at = c.created_at := rfl

@[simp] theorem markDeleted_deleted_at (f : Nat → Option Nat) (c : CommentRow) :
    (markDeleted f c).deleted_at = f c.id := rfl

@[simp] theorem markReplyDeleted_created_at (f : Nat → Option Nat) (x : ReplyItem) :
    (markReplyDeleted f x).created_at = x.created_at := rfl

theorem attachProfiles_markDeleted (pm : Nat → Option ProfileRow) (f : Nat → Option Nat)
    (c : CommentRow) :
    attachProfiles pm (markDeleted f c) = markDeleted f (attachProfiles pm c) := rfl

theorem directFor_markDeleted (f : Nat → Option Nat) (dr : List CommentRow) (c : CommentRow) :
    directFor (dr.map (markDeleted f)) (markDeleted f c) =
      (directFor dr c).map (markDeleted f) := by
  rw [directFor, directFor, List.filter_map]
  rfl

theorem directMapped_markDeleted (pm : Nat → Option ProfileRow) (f : Nat → Option Nat)
    (dr : List CommentRow) (c : CommentRow) :
    directMapped pm (dr.map (markDeleted f)) (markDeleted f c) =
      (directMapped pm dr c).map (markDeleted f) := by
  rw [directMapped, directMapped, directFor_markDeleted, List.map_map, List.map_map]
  rfl

theorem directIdsFor_markDeleted (pm : Nat → Option ProfileRow) (f : Nat → Option Nat)
    (dr : List CommentRow) (c : CommentRow) :
    directIdsFor pm (dr.map (markDeleted f)) (markDeleted f c) = directIdsFor pm dr c := by
  rw [directIdsFor, directIdsFor, directMapped_markDeleted, List.map_map]
  rfl

theorem directReplyLookup_markDeleted (pm : Nat → Option ProfileRow) (f : Nat → Option Nat)
    (dr : List CommentRow) (p : Nat) :
    directReplyLookup pm (dr.map (markDeleted f)) p =
      (directReplyLookup pm dr p).map (markDeleted f) := by
  rw [directReplyLookup, directReplyLookup, ← List.map_reverse, List.find?_map,
    Option.map_map, Option.map_map]
  rfl

theorem nestedFor_markDeleted (pm : Nat → Option ProfileRow) (f : Nat → Option Nat)
    (dr nr : List CommentRow) (c : CommentRow) :
    nestedFor pm (dr.map (markDeleted f)) (nr.map (markDeleted f)) (markDeleted f c) =
      (nestedFor pm dr nr c).map (markReplyDeleted f) := by
  rw [nestedFor, nestedFor, directIdsFor_markDeleted, List.filter_map, List.map_map,
    List.map_map]
  apply List.map_congr_left
  intro m _
  simp only [Function.comp, markDeleted_parent_id]
  cases hm : m.parent_id with
  | none => rfl
  | some p =>
    show ({ toCommentRow := attachProfiles pm (markDeleted f m)
            parent := directReplyLookup pm (dr.map (markDeleted f)) p } : ReplyItem) =
      markReplyDeleted f
        { toCommentRow := attachProfiles pm m, parent := directReplyLookup pm dr p }
    rw [directReplyLookup_markDeleted, attachProfiles_markDeleted]
    rfl

theorem insertDesc_markDeleted (f : Nat → Option Nat) (x : ReplyItem) (l : List ReplyItem) :
    insertDesc (markReplyDeleted f x) (l.map (markReplyDeleted f)) =
      (insertDesc x l).map (markReplyDeleted f) := by
  induction l with
  | nil => rfl
  | cons y ys ih =>
    show insertDesc (markReplyDeleted f x) (markReplyDeleted f y :: ys.map (markReplyDeleted f)) = _
    rw [insertDesc]
    simp only [markReplyDeleted_created_at]
    by_cases h : y.created_at ≤ x.created_at
    · rw [if_pos h, insertDesc, if_pos h]
      rfl
    · rw [if_neg h, insertDesc, if_neg h, List.map_cons, ih]

theorem sortByCreatedDesc_markDeleted (f : Nat → Option Nat) (l : List ReplyItem) :
    sortByCreatedDesc (l.map (markReplyDeleted f)) =
      (sortByCreatedDesc l).map (markReplyDeleted f) := by
  induction l with
  | nil => rfl
  | cons x xs ih =>
    show insertDesc (markReplyDeleted f x) (sortByCreatedDesc (xs.map (markReplyDeleted f))) = _
    rw [ih, insertDesc_markDeleted]
    rfl

theorem flatRepliesFor_markDeleted (pm : Nat → Option ProfileRow) (f : Nat → Option Nat)
    (dr nr : List CommentRow) (c : CommentRow) :
    flatRepliesFor pm (dr.map (markDeleted f)) (nr.map (markDeleted f)) (markDeleted f c) =
      (flatRepliesFor pm dr nr c).map (markReplyDeleted f) := by
  rw [flatRepliesFor, flatRepliesFor, preRepliesFor, preRepliesFor,
    directMapped_markDeleted, nestedFor_markDeleted, List.map_map]
  rw [← sortByCreatedDesc_markDeleted, List.map_append, List.map_map]
  rfl

/-- C6. A soft-deleted comment keeps its identifier, timestamps, and
position in the top-level ordering and in its reply list: rewriting the
`deleted_at` markers of all inputs commutes with assembly, changing no id,
no timestamp and no position (only the carried markers). In the rendered
`CommentBlock`, a deleted comment's body is replaced by the placeholder and
its like, reply, edit and delete affordances are all disabled. -/
theorem claim_C6 (pm : Nat → Option ProfileRow) (f : Nat → Option Nat)
    (tl dr nr : List CommentRow) (user : Option Nat) (lk : Finset Nat) :
    withReplies pm (tl.map (markDeleted f)) (dr.map (markDeleted f)) (nr.map (markDeleted f)) =
      (withReplies pm tl dr nr).map (markGroupDeleted f) ∧
    (∀ c : CommentRow, c.deleted_at.isSome →
      (CommentBlock user lk c).displayedBody = "삭제된 댓글입니다." ∧
      (CommentBlock user lk c).canLike = false ∧
      (CommentBlock user lk c).canReply = false ∧
      (CommentBlock user lk c).canEdit = false ∧
      (CommentBlock user lk c).canDelete = false) := by
  constructor
  · rw [withReplies, withReplies, List.map_map, List.map_map]
    apply List.map_congr_left
    intro c _
    simp only [Function.comp]
    rw [flatRepliesFor_markDeleted, attachProfiles_markDeleted]
    rfl
  · intro c hdel
    simp [CommentBlock, hdel]

/-- A concrete instance of C6: marking the scenario rows deleted commutes
with assembly, and the rendered deleted comment shows the placeholder. -/
theorem claim_C6_witness :
    withReplies samplePm ([sampleA].map (markDeleted (fun _ => some 5)))
        ([sampleB, sampleC].map (markDeleted (fun _ => some 5)))
        ([sampleD].map (markDeleted (fun _ => some 5))) =
      (withReplies samplePm [sampleA] [sampleB, sampleC] [sampleD]).map
        (markGroupDeleted (fun _ => some 5)) ∧
    (CommentBlock (some 10) ∅ (markDeleted (fun _ => some 5) sampleA)).displayedBody =
      "삭제된 댓글입니다." := by
  have h := claim_C6 samplePm (fun _ => some 5) [sampleA] [sampleB, sampleC] [sampleD]
      (some 10) ∅
  exact ⟨h.1, (h.2 (markDeleted (fun _ => some 5) sampleA) (by decide)).1⟩

theorem displayName_of_none (c : CommentRow) (h : c.profiles = none) :
    displayName c = "알 수 없음" := by
  simp [displayName, h]

/-- C7. A comment (top-level or reply) whose author id has no entry in the
profile lookup is still emitted — one group per top-level comment, replies
kept — with a null profile attached whose display degrades to the
placeholder name, and the assembler never errors because of it. -/
theorem claim_C7 (pm : Nat → Option ProfileRow) (tl dr nr : List CommentRow) :
    (withReplies pm tl dr nr).length = tl.length ∧
    (∀ g ∈ withReplies pm tl dr nr,
      g.profiles = pm g.user_id ∧
      (pm g.user_id = none → displayName g.toCommentRow = "알 수 없음") ∧
      ∀ x ∈ g.replies,
        x.profiles = pm x.user_id ∧
        (pm x.user_id = none → displayName x.toCommentRow = "알 수 없음")) := by
  refine ⟨by simp [withReplies], ?_⟩
  intro g hg
  obtain ⟨c, _hc, rfl⟩ := (mem_withReplies pm tl dr nr g).mp hg
  refine ⟨rfl, fun hnone => displayName_of_none _ hnone, ?_⟩
  intro x hx
  rcases (mem_flatRepliesFor pm dr nr c x).mp hx with ⟨r, _, rfl⟩ | ⟨m, _, _, rfl⟩
  · exact ⟨rfl, fun hnone => displayName_of_none _ hnone⟩
  · exact ⟨rfl, fun hnone => displayName_of_none _ hnone⟩

/-- A concrete instance of C7: with an empty profile lookup a full result
is emitted and the top-level comment displays the placeholder name. -/
theorem claim_C7_witness :
    (withReplies samplePm [sampleA] [sampleB, sampleC] [sampleD]).length = 1 ∧
    displayName (attachProfiles samplePm sampleA) = "알 수 없음" := by
  have h := claim_C7 samplePm [sampleA] [sampleB, sampleC] [sampleD]
  refine ⟨h.1, ?_⟩
  exact (h.2 { toCommentRow := attachProfiles samplePm sampleA
               replies := flatRepliesFor samplePm [sampleB, sampleC] [sampleD] sampleA }
    (by simp [withReplies])).2.1 rfl

/-! ## The like toggle -/

theorem handleToggleLike_likedIds (u commentId : Nat) (s : LikeState) :
    (handleToggleLike (some u) commentId s).likedIds =
      if commentId ∈ s.likedIds then s.likedIds.erase commentId
      else insert commentId s.likedIds := by
  by_cases h : commentId ∈ s.likedIds <;> simp [handleToggleLike, h]

theorem handleToggleLike_comments (u commentId : Nat) (s : LikeState) :
    (handleToggleLike (some u) commentId s).comments =
      s.comments.map (fun c =>
        if c.id = commentId then
          { c with likes_count :=
              if commentId ∈ s.likedIds then max 0 (c.likes_count - 1)
              else c.likes_count + 1 }
        else { c with replies := c.replies.map (fun r =>
          if r.id = commentId then
            { r with likes_count :=
                if commentId ∈ s.likedIds then max 0 (r.likes_count - 1)
                else r.likes_count + 1 }
          else r) }) := by
  by_cases h : commentId ∈ s.likedIds <;> simp [handleToggleLike, h]

/-- C8. For a comment whose id is in `likedCommentIds` the derived liked
flag is true; toggling like on it removes the id from the set and the
matching entry's like count — top-level (by position), or reply under a
non-matching top-level comment — becomes `max 0 (count - 1)`: decremented
by one, floored at zero. -/
theorem claim_C8 (u commentId : Nat) (s : LikeState) (hX : commentId ∈ s.likedIds) :
    (∀ c : CommentRow, c.id = commentId →
      (CommentBlock (some u) s.likedIds c).liked = true) ∧
    commentId ∉ (handleToggleLike (some u) commentId s).likedIds ∧
    (handleToggleLike (some u) commentId s).comments.length = s.comments.length ∧
    (∀ k (hk : k < s.comments.length)
        (hk' : k < (handleToggleLike (some u) commentId s).comments.length),
      (s.comments.get ⟨k, hk⟩).id = commentId →
        ((handleToggleLike (some u) commentId s).comments.get ⟨k, hk'⟩).likes_count =
          max 0 ((s.comments.get ⟨k, hk⟩).likes_count - 1)) ∧
    (∀ k (hk : k < s.comments.length)
        (hk' : k < (handleToggleLike (some u) commentId s).comments.length)
        (j : Nat) (hj : j < (s.comments.get ⟨k, hk⟩).replies.length)
        (hj' : j < ((handleToggleLike (some u) commentId s).comments.get
            ⟨k, hk'⟩).replies.length),
      (s.comments.get ⟨k, hk⟩).id ≠ commentId →
      ((s.comments.get ⟨k, hk⟩).replies.get ⟨j, hj⟩).id = commentId →
        (((handleToggleLike (some u) commentId s).comments.get ⟨k, hk'⟩).replies.get
            ⟨j, hj'⟩).likes_count =
          max 0 (((s.comments.get ⟨k, hk⟩).replies.get ⟨j, hj⟩).likes_count - 1)) := by
  refine ⟨?_, ?_, ?_, ?_, ?_⟩
  · intro c hc
    simp [CommentBlock, hc, hX]
  · rw [handleToggleLike_likedIds]
    simp [hX]
  · rw [handleToggleLike_comments]
    simp
  · intro k hk hk' hid
    simp only [List.get_eq_getElem] at hid
    simp only [handleToggleLike_comments, List.get_eq_getElem, List.getElem_map]
    rw [if_pos hid]
    simp [hX]
  · intro k hk hk' j hj hj' hcid hrid
    simp only [List.get_eq_getElem] at hcid hrid
    simp only [handleToggleLike_comments, List.get_eq_getElem, List.getElem_map]
    simp [List.getElem_map, hcid, hrid, hX]

/-- A concrete instance of C8: reply B (id 2) is liked, and toggling
removes it from the set. -/
theorem claim_C8_witness :
    (CommentBlock (some 10) ({2} : Finset Nat) sampleB).liked = true ∧
    2 ∉ (handleToggleLike (some 10) 2
      { likedIds := ({2} : Finset Nat)
        comments := withReplies samplePm [sampleA] [sampleB, sampleC] [sampleD] }).likedIds := by
  have h := claim_C8 10 2
      { likedIds := ({2} : Finset Nat)
        comments := withReplies samplePm [sampleA] [sampleB, sampleC] [sampleD] }
      (by decide)
  exact ⟨h.1 sampleB (by decide), h.2.1⟩

/-- C10, counterexample: unliking comment 1 whose stored count is already
zero leaves the count at zero (the source floors with
`Math.max(0, likes_count - 1)`), so the toggled entry's count does not
change by exactly plus or minus one. -/
theorem claim_C10_counterexample :
    (handleToggleLike (some 10) 1 cexLikeState).comments.map (fun c => c.likes_count) = [0] ∧
    cexLikeState.comments.map (fun c => c.likes_count) = [0] ∧
    ¬((0 : Int) = 0 + 1 ∨ (0 : Int) = 0 - 1) := by
  refine ⟨by decide, by decide, by decide⟩

/-- C10 as amended: toggling like on id `commentId` changes only the
`likes_count` of entries with that id — incremented by one when the id was
not in `likedIds`, replaced by `max 0 (count - 1)` when it was — and
changes nothing else: lengths, every other field of a matching entry,
every entry with a different id, and the whole reply list of a matching
top-level comment are unchanged. -/
theorem claim_C10_amended (u commentId : Nat) (s : LikeState) :
    (handleToggleLike (some u) commentId s).comments.length = s.comments.length ∧
    (∀ k (hk : k < s.comments.length)
        (hk' : k < (handleToggleLike (some u) commentId s).comments.length),
      ((handleToggleLike (some u) commentId s).comments.get ⟨k, hk'⟩).replies.length =
        (s.comments.get ⟨k, hk⟩).replies.length ∧
      ((s.comments.get ⟨k, hk⟩).id ≠ commentId →
        ((handleToggleLike (some u) commentId s).comments.get ⟨k, hk'⟩).toCommentRow =
          (s.comments.get ⟨k, hk⟩).toCommentRow) ∧
      ((s.comments.get ⟨k, hk⟩).id = commentId →
        ((handleToggleLike (some u) commentId s).comments.get ⟨k, hk'⟩).toCommentRow =
          { (s.comments.get ⟨k, hk⟩).toCommentRow with
              likes_count :=
                if commentId ∈ s.likedIds
                then max 0 ((s.comments.get ⟨k, hk⟩).likes_count - 1)
                else (s.comments.get ⟨k, hk⟩).likes_count + 1 } ∧
        ((handleToggleLike (some u) commentId s).comments.get ⟨k, hk'⟩).replies =
          (s.comments.get ⟨k, hk⟩).replies) ∧
      (∀ j (hj : j < (s.comments.get ⟨k, hk⟩).replies.length)
          (hj' : j < ((handleToggleLike (some u) commentId s).comments.get
              ⟨k, hk'⟩).replies.length),
        (s.comments.get ⟨k, hk⟩).id ≠ commentId →
        ((((s.comments.get ⟨k, hk⟩).replies.get ⟨j, hj⟩).id ≠ commentId →
          ((handleToggleLike (some u) commentId s).comments.get ⟨k, hk'⟩).replies.get
              ⟨j, hj'⟩ =
            (s.comments.get ⟨k, hk⟩).replies.get ⟨j, hj⟩) ∧
         (((s.comments.get ⟨k, hk⟩).replies.get ⟨j, hj⟩).id = commentId →
          ((handleToggleLike (some u) commentId s).comments.get ⟨k, hk'⟩).replies.get
              ⟨j, hj'⟩ =
            { (s.comments.get ⟨k, hk⟩).replies.get ⟨j, hj⟩ with
                likes_count :=
                  if commentId ∈ s.likedIds
                  then max 0 (((s.comments.get ⟨k, hk⟩).replies.get ⟨j, hj⟩).likes_count - 1)
                  else ((s.comments.get ⟨k, hk⟩).replies.get ⟨j, hj⟩).likes_count + 1 })))) := by
  refine ⟨by rw [handleToggleLike_comments]; simp, ?_⟩
  intro k hk hk'
  refine ⟨?_, ?_, ?_, ?_⟩
  · by_cases hid : (s.comments.get ⟨k, hk⟩).id = commentId <;>
      simp only [List.get_eq_getElem] at hid ⊢ <;>
      simp [handleToggleLike_comments, List.getElem_map, hid]
  · intro hid
    simp only [List.get_eq_getElem] at hid ⊢
    simp [handleToggleLike_comments, List.getElem_map, hid]
  · intro hid
    simp only [List.get_eq_getElem] at hid ⊢
    constructor
    · simp [handleToggleLike_comments, List.getElem_map, hid]
    · simp [handleToggleLike_comments, List.getElem_map, hid]
  · intro j hj hj' hid
    simp only [List.get_eq_getElem] at hid ⊢
    constructor
    · intro hrid
      simp [handleToggleLike_comments, List.getElem_map, hid, hrid]
    · intro hrid
      simp [handleToggleLike_comments, List.getElem_map, hid, hrid]

/-- A concrete instance of the amended C10 at the zero-count state:
the toggled comment's row is updated with the floored count and its
reply list is untouched. -/
theorem claim_C10_amended_witness :
    (handleToggleLike (some 10) 1 cexLikeState).comments.length =
      cexLikeState.comments.length ∧
    ((handleToggleLike (some 10) 1 cexLikeState).comments.get
        ⟨0, by decide⟩).toCommentRow =
      { (cexLikeState.comments.get ⟨0, by decide⟩).toCommentRow with
          likes_count :=
            if 1 ∈ cexLikeState.likedIds
            then max 0 ((cexLikeState.comments.get ⟨0, by decide⟩).likes_count - 1)
            else (cexLikeState.comments.get ⟨0, by decide⟩).likes_count + 1 } := by
  have h := claim_C10_amended 10 1 cexLikeState
  exact ⟨h.1, ((h.2 0 (by decide) (by decide)).2.2.1 (by decide)).1⟩

/-- C9. For a signed-in user, a submission whose content is empty after
trimming or longer than 1000 characters is rejected with a message and no
insert command is issued, by both the comment and the reply handler;
otherwise the trimmed content is inserted (with null parent for a comment,
with the chosen parent id for a reply). -/
theorem claim_C9 (uid postId parentId : Nat) (input : String) :
    ((trimString input = "" ∨ (trimString input).length > COMMENT_MAX_LENGTH) →
      (∃ msg, handleSubmitComment (some uid) postId input = .rejected msg) ∧
      (∃ msg, handleSubmitReply (some uid) postId parentId input = .rejected msg)) ∧
    (¬(trimString input = "" ∨ (trimString input).length > COMMENT_MAX_LENGTH) →
      handleSubmitComment (some uid) postId input =
        .inserted { post_id := postId, user_id := uid, content := trimString input,
                    parent_id := none } ∧
      handleSubmitReply (some uid) postId parentId input =
        .inserted { post_id := postId, user_id := uid, content := trimString input,
                    parent_id := some parentId }) := by
  by_cases he : trimString input = ""
  · refine ⟨fun _ => ⟨⟨"댓글 내용을 입력해주세요.", ?_⟩,
      ⟨"댓글은 1~" ++ toString COMMENT_MAX_LENGTH ++ "자로 입력해주세요.", ?_⟩⟩,
      fun hn => absurd (Or.inl he) hn⟩
    · simp [handleSubmitComment, he]
    · simp [handleSubmitReply, he]
  · by_cases hl : (trimString input).length > COMMENT_MAX_LENGTH
    · refine ⟨fun _ =>
        ⟨⟨"댓글은 " ++ toString COMMENT_MAX_LENGTH ++ "자 이하여야 합니다.", ?_⟩,
         ⟨"댓글은 1~" ++ toString COMMENT_MAX_LENGTH ++ "자로 입력해주세요.", ?_⟩⟩,
        fun hn => absurd (Or.inr hl) hn⟩
      · simp [handleSubmitComment, he, hl]
      · simp [handleSubmitReply, he, hl]
    · refine ⟨fun h => ?_, fun _ => ⟨?_, ?_⟩⟩
      · rcases h with h | h
        · exact absurd h he
        · exact absurd h hl
      · simp [handleSubmitComment, he, hl]
      · simp [handleSubmitReply, he, hl]

/-- A concrete instance of C9: well-formed input is inserted trimmed, and
whitespace-only input is rejected by both handlers. -/
theorem claim_C9_witness :
    handleSubmitComment (some 10) 1 " hello " =
      SubmitResult.inserted
        { post_id := 1, user_id := 10, content := trimString " hello ",
          parent_id := none } ∧
    handleSubmitReply (some 10) 1 2 " hello " =
      SubmitResult.inserted
        { post_id := 1, user_id := 10, content := trimString " hello ",
          parent_id := some 2 } ∧
    (∃ msg, handleSubmitComment (some 10) 1 "   " = SubmitResult.rejected msg) := by
  have hv := (claim_C9 10 1 2 " hello ").2 (by decide)
  have hr := ((claim_C9 10 1 2 "   ").1 (by decide)).1
  exact ⟨hv.1, hv.2, hr⟩

example :
    let a : CommentRow :=
      { id := 1, post_id := 0, user_id := 0, content := "A", created_at := 10,
        parent_id := none, likes_count := 0, deleted_at := none, profiles := none }
    let b : CommentRow :=
      { id := 2, post_id := 0, user_id := 0, content := "B", created_at := 9,
        parent_id := some 1, likes_count := 0, deleted_at := none, profiles := none }
    let c : CommentRow :=
      { id := 3, post_id := 0, user_id := 0, content := "C", created_at := 8,
        parent_id := some 1, likes_count := 0, deleted_at := none, profiles := none }
    let d : CommentRow :=
      { id := 4, post_id := 0, user_id := 0, content := "D", created_at := 7,
        parent_id := some 2, likes_count := 0, deleted_at := none, profiles := none }
    (withReplies (fun _ => none) [a] [b, c] [d]).map
        (fun g => (g.id, g.replies.map (fun x => (x.id, x.parent.map (fun p => p.id))))) =
      [(1, [(2, none), (3, none), (4, some 2)])] := by
  decide
